import Mathlib

/-!
Verification of the payroll pipeline in `src/app.py` (PAYROLL-BOT).

The embedding models the pandas dataframe pipeline as pure functions over
lists.  External library calls are modelled as follows:
* `pd.to_datetime(..., errors='coerce')` (line 63) happens outside the model:
  a `Deal` carries `DATE : Option Nat`, where `none` is a `NaT`
  (unparseable date) and `some t` is a timestamp measured in minutes.
* `fuzzywuzzy`'s scorer (`process.extractOne`'s `WRatio` together with its
  text processor) is an opaque third-party metric; all pipeline definitions
  take it as an explicit parameter `scorer : String → String → ℕ`
  (scores are on the library's 0–100 scale).  The selection logic of
  `process.extractOne` (filter by `score_cutoff`, then pick the first
  best-scoring candidate) is modelled exactly.
* numpy float arithmetic in `parse_and_round_up` is modelled with exact
  rationals (`ℚ`); `np.ceil` is the exact ceiling.
* `sort_values(by='DATE')` is modelled by a stable sort with missing dates
  placed last (`na_position='last'`, pandas' documented behaviour); pandas'
  quicksort is not stable on equal keys, but no statement below depends on
  the order of rows with identical dates.
-/

namespace PayrollBot

/-! ## Generic list operations used by the pandas pipeline -/

/-- Auxiliary recursion for `drop_duplicates`: keep the first row for each
key not yet seen. -/
def dropDupsAux {α β : Type} [DecidableEq β] (key : α → β) (seen : List β) :
    List α → List α
  | [] => []
  | a :: l =>
    if key a ∈ seen then dropDupsAux key seen l
    else a :: dropDupsAux key (key a :: seen) l

/-- `DataFrame.drop_duplicates(subset=[key])`: keeps the first row with each
key value, in order (pandas `keep='first'`, the default). -/
def drop_duplicates {α β : Type} [DecidableEq β] (key : α → β) (l : List α) :
    List α :=
  dropDupsAux key [] l

/-- `Series.unique()`: distinct values in order of first occurrence. -/
def uniqueList (l : List String) : List String :=
  drop_duplicates id l

/-- Insert an element into a sorted list, before the first element it
compares `le` to (stable insertion). -/
def insertLe {α : Type} (le : α → α → Bool) (a : α) : List α → List α
  | [] => [a]
  | b :: l => if le a b then a :: b :: l else b :: insertLe le a l

/-- Stable insertion sort, modelling `DataFrame.sort_values`. -/
def sort_values {α : Type} (le : α → α → Bool) : List α → List α
  | [] => []
  | a :: l => insertLe le a (sort_values le l)

/-! ## Name normalisation (lines 64-65, 72, 78: `.str.strip().str.title()`) -/

/-- One pass of Python's `str.title()` over the characters: the Boolean
records whether the previous character was a letter (ASCII model of
Python's cased/uncased distinction). -/
def titleAux : Bool → List Char → List Char
  | _, [] => []
  | prevAlpha, c :: cs =>
    if c.isAlpha then
      (if prevAlpha then c.toLower else c.toUpper) :: titleAux true cs
    else c :: titleAux false cs

/-- Python `str.title()`. -/
def str_title (s : String) : String :=
  String.mk (titleAux false s.data)

/-- `.astype(str).str.strip().str.title()` applied to every name field. -/
def normalize_name (s : String) : String :=
  str_title s.trim

/-! ## `parse_and_round_up` (src/app.py lines 12-19) -/

/-- Python `str.split(':')` at the character level (keeps empty pieces). -/
def splitFields (s : String) : List (List Char) :=
  s.data.splitOn ':'

/-- Decimal-digit accumulation for `toIntChars`; fails on the first
non-digit character.  Note `digitsToNat acc [] = some acc`, so the caller
must require a nonempty digit run. -/
def digitsToNat (acc : ℕ) : List Char → Option ℕ
  | [] => some acc
  | c :: cs => if c.isDigit then digitsToNat (acc * 10 + (c.toNat - 48)) cs else none

/-- Python `int(str)` on a field: an optional sign followed by a nonempty
run of decimal digits; anything else raises `ValueError`, modelled as
`none`.  (Python additionally tolerates surrounding whitespace and
underscore separators; no claim depends on those inputs.) -/
def toIntChars : List Char → Option ℤ
  | [] => none
  | '-' :: cs => if cs.isEmpty then none else (digitsToNat 0 cs).map (fun n => -(n : ℤ))
  | '+' :: cs => if cs.isEmpty then none else (digitsToNat 0 cs).map (fun n => (n : ℤ))
  | cs => (digitsToNat 0 cs).map (fun n => (n : ℤ))

/-- The colon-separated fields of a duration string, each passed through
integer parsing (`map(int, ...)`); a field that fails to parse is `none`,
modelling the `ValueError` branch. -/
def durationFields (s : String) : List (Option ℤ) :=
  (splitFields s).map toIntChars

/-- src/app.py lines 12-19.  Parses `'H:M:S'`, converts to hours and rounds
up (`np.ceil`).  Exactly three integer fields are required
(`h, m, s = map(int, ...)`); any `ValueError`/`TypeError` yields `0.0`.
The Python code computes in IEEE doubles; the model uses exact rationals
(the claim's example inputs are exact in both). -/
def parse_and_round_up (duration_str : String) : ℚ :=
  match durationFields duration_str with
  | [some h, some m, some s] => ((⌈(h : ℚ) + (m : ℚ) / 60 + (s : ℚ) / 3600⌉ : ℤ) : ℚ)
  | _ => 0

/-! ## `fuzzy_match` (src/app.py lines 21-24) -/

/-- Python `max(..., key=score)`: the first element of maximal score. -/
def maxFirst (p : String × ℕ) : List (String × ℕ) → String × ℕ
  | [] => p
  | q :: qs => maxFirst (if p.2 < q.2 then q else p) qs

/-- `fuzzywuzzy.process.extractOne(query, choices, score_cutoff)`: score every
choice, keep those reaching the cutoff, return the first best-scoring
`(choice, score)` pair, or `None` when nothing reaches the cutoff (in
particular when `choices` is empty). -/
def extractOne (scorer : String → String → ℕ) (query : String)
    (choices : List String) (score_cutoff : ℕ) : Option (String × ℕ) :=
  match (choices.map (fun c => (c, scorer query c))).filter
      (fun p => decide (score_cutoff ≤ p.2)) with
  | [] => none
  | p :: ps => some (maxFirst p ps)

/-- src/app.py lines 21-24: best match above the cutoff, otherwise the
original name.  The code's `cutoff=80` default is passed explicitly at
every use below, as both call sites rely on the default. -/
def fuzzy_match (scorer : String → String → ℕ) (name : String)
    (name_list : List String) (cutoff : ℕ) : String :=
  match extractOne scorer name name_list cutoff with
  | some m => m.1
  | none => name

/-! ## Rate tiers (src/app.py lines 26-48) -/

/-- src/app.py lines 26-37. -/
def determine_hourly_rate (deals : ℤ) : ℤ :=
  if deals ≥ 15 then 22
  else if deals ≥ 12 then 20
  else if deals ≥ 8 then 18
  else if deals ≥ 4 then 15
  else 13

/-- src/app.py lines 39-48. -/
def hours_bonus (hours : ℚ) : ℤ :=
  if hours ≥ 60 then 100
  else if hours ≥ 50 then 75
  else if hours ≥ 40 then 50
  else 0

/-! ## Data model -/

/-- One row of the HubSpot deal tracker after loading (lines 61-67):
`DATE` is the `pd.to_datetime` result (`none` = `NaT`), names are already
normalised (`.str.strip().str.title()`). -/
structure Deal where
  DATE : Option ℕ
  CLOSER : String
  ENROLLER : String
  deriving DecidableEq

/-- One deal-tracker row before the cleaning of lines 64-65. -/
structure RawDeal where
  date : Option ℕ
  closer : String
  enroller : String
  deriving DecidableEq

/-- Lines 64-65: normalise both name columns. -/
def loadHub (rows : List RawDeal) : List Deal :=
  rows.map (fun r =>
    { DATE := r.date, CLOSER := normalize_name r.closer,
      ENROLLER := normalize_name r.enroller })

/-- Line 67: `hubspot_df['DealDate'] = hubspot_df['DATE'].dt.date`, the
date-only bucket of the timestamp (`NaT` stays `NaT`). -/
def minutesPerDay : ℕ := 1440

/-- The day bucket of a timestamp. -/
def dayOf (t : ℕ) : ℕ := t / minutesPerDay

/-- `DealDate` column of a row. -/
def DealDate (r : Deal) : Option ℕ := r.DATE.map dayOf

/-- Pandas `.dt.weekday` on the day bucket: Monday = 0; day 0 of the epoch
(1970-01-01) is a Thursday, weekday 3. -/
def weekdayOfDay (d : ℕ) : ℕ := (d + 3) % 7

/-- Line 94: `hubspot_df['DATE'].dt.weekday == 5` (`NaT` compares false). -/
def isSaturday : Option ℕ → Bool
  | some t => weekdayOfDay (dayOf t) == 5
  | none => false

/-- One timesheet row after loading (lines 70-79): name normalised, the
`Man Hours` duration already put through `parse_and_round_up`. -/
structure SheetRow where
  Rep : String
  ManHours : ℚ
  deriving DecidableEq

/-- One timesheet row before the cleaning of lines 72-73 / 78-79. -/
structure RawSheetRow where
  rep : String
  manHours : String
  deriving DecidableEq

/-- Lines 72-73 (and 78-79): normalise the name, parse the duration. -/
def loadSheet (rows : List RawSheetRow) : List SheetRow :=
  rows.map (fun r =>
    { Rep := normalize_name r.rep, ManHours := parse_and_round_up r.manHours })

/-! ## Closer pipeline (src/app.py lines 82-119) -/

/-- Line 86: `canonical_closers = hubspot_df['CLOSER'].unique()`. -/
def canonical_closers (hub : List Deal) : List String :=
  uniqueList (hub.map Deal.CLOSER)

/-- Lines 87-88: resolution of a closer-side name: fuzzy match against the
deal-tracker roster (the cutoff is the code's default, 80). -/
def closerAgent (scorer : String → String → ℕ) (hub : List Deal)
    (name : String) : String :=
  fuzzy_match scorer name (canonical_closers hub) 80

/-- Line 91: `hubspot_df['Agent'].value_counts()` looked up for one agent:
the number of deal rows whose resolved closer is `a`. -/
def deal_count (scorer : String → String → ℕ) (hub : List Deal)
    (a : String) : ℕ :=
  ((hub.filter (fun r => decide (closerAgent scorer hub r.CLOSER = a)))).length

/-- Lines 93-95: restrict to rows on ANY Saturday
(`hubspot_df['DATE'].dt.weekday == 5`), then count per resolved agent. -/
def saturday_deals (scorer : String → String → ℕ) (hub : List Deal)
    (a : String) : ℕ :=
  (((hub.filter (fun r => isSaturday r.DATE)).filter
      (fun r => decide (closerAgent scorer hub r.CLOSER = a)))).length

/-- The sort key of line 99 (`sort_values(by='DATE')`): ascending timestamps
with `NaT` placed last (`na_position='last'`). -/
def dateLe : Option ℕ → Option ℕ → Bool
  | some a, some b => decide (a ≤ b)
  | some _, none => true
  | none, some _ => false
  | none, none => true

/-- Line 99: `hubspot_df.sort_values(by='DATE')
.drop_duplicates(subset=['DealDate'], keep='first')` — one row per
`DealDate` bucket, the chronologically first; note that all `NaT`
buckets coincide (pandas treats missing values as duplicates of each
other in `drop_duplicates`). -/
def first_per_date (hub : List Deal) : List Deal :=
  drop_duplicates DealDate (sort_values (fun x y => dateLe x.DATE y.DATE) hub)

/-- Line 100: `first_per_date['Agent'].value_counts()` looked up for one
agent. -/
def first_deal_bonus_count (scorer : String → String → ℕ) (hub : List Deal)
    (a : String) : ℕ :=
  (((first_per_date hub).filter
      (fun r => decide (closerAgent scorer hub r.CLOSER = a)))).length

/-- One row of the export tables (lines 153-168): the computed pay columns
plus the three blank manual-entry columns. -/
structure ExportRow where
  Agent : String
  DealCount : ℤ
  ManHours : ℚ
  HourlyRate : ℤ
  HourlyPay : ℚ
  RegularDealsPay : ℤ
  SaturdayDealsPay : ℤ
  HoursBonus : ℤ
  FirstDealBonus : ℤ
  ManualBonus : ℤ
  Bonus25Count : ℤ
  Bonus50Count : ℤ
  deriving DecidableEq

/-- Lines 102-110: the per-role roster is the timesheet's resolved agents,
first occurrence kept (`drop_duplicates(subset=['Agent'])`), each with that
row's `Man Hours`.  The subsequent merges (lines 107-109 / 138) are
left joins on the unique keys of `value_counts` results, i.e. lookups;
`fillna(0)` makes a missing key count as 0 — both are folded into the
total counting functions above. -/
def sheetPairs (resolve : String → String) (sheet : List SheetRow) :
    List (String × ℚ) :=
  drop_duplicates Prod.fst (sheet.map (fun r => (resolve r.Rep, r.ManHours)))

/-- Lines 113-119 and 153-168: the pay columns of one closer row. -/
def closerRow (scorer : String → String → ℕ) (hub : List Deal)
    (a : String) (hrs : ℚ) : ExportRow :=
  { Agent := a
    DealCount := (deal_count scorer hub a : ℤ)
    ManHours := hrs
    HourlyRate := determine_hourly_rate (deal_count scorer hub a : ℤ)
    HourlyPay := (determine_hourly_rate (deal_count scorer hub a : ℤ) : ℚ) * hrs
    RegularDealsPay :=
      ((deal_count scorer hub a : ℤ) - (saturday_deals scorer hub a : ℤ)) * 35
    SaturdayDealsPay := (saturday_deals scorer hub a : ℤ) * 50
    HoursBonus := hours_bonus hrs
    FirstDealBonus := (first_deal_bonus_count scorer hub a : ℤ) * 25
    ManualBonus := 0
    Bonus25Count := 0
    Bonus50Count := 0 }

/-- Lines 102-119, 153-156, 165-168: the closer table before sorting. -/
def closersTable (scorer : String → String → ℕ) (hub : List Deal)
    (sheet : List SheetRow) : List ExportRow :=
  (sheetPairs (closerAgent scorer hub) sheet).map
    (fun p => closerRow scorer hub p.1 p.2)

/-- Lexicographic comparison of character lists by code point — the order
Python uses to compare strings, and the same order as Lean's `≤` on
`String` (see `charListLe_iff_le` below). -/
def charListLe : List Char → List Char → Bool
  | [], _ => true
  | _ :: _, [] => false
  | a :: as, b :: bs => if a = b then charListLe as bs else decide (a < b)

/-- The sort key of lines 171-172: ascending agent name. -/
def agentLe (x y : ExportRow) : Bool :=
  charListLe x.Agent.data y.Agent.data

/-- Line 171: the closer section of the report, sorted by agent name. -/
def closers_export (scorer : String → String → ℕ) (hub : List Deal)
    (sheet : List SheetRow) : List ExportRow :=
  sort_values agentLe (closersTable scorer hub sheet)

/-! ## Enroller pipeline (src/app.py lines 122-148) -/

/-- Line 126: `canonical_enrollers = hubspot_df['ENROLLER'].unique()`. -/
def canonical_enrollers (hub : List Deal) : List String :=
  uniqueList (hub.map Deal.ENROLLER)

/-- Lines 127-128: resolution of an enroller-side name. -/
def enrollerAgent (scorer : String → String → ℕ) (hub : List Deal)
    (name : String) : String :=
  fuzzy_match scorer name (canonical_enrollers hub) 80

/-- Line 131: submissions per resolved enroller. -/
def submitted_deals (scorer : String → String → ℕ) (hub : List Deal)
    (a : String) : ℕ :=
  ((hub.filter (fun r => decide (enrollerAgent scorer hub r.ENROLLER = a)))).length

/-- Lines 142-148, 159-162, 165-168: the pay columns of one enroller row. -/
def enrollerRow (scorer : String → String → ℕ) (hub : List Deal)
    (a : String) (hrs : ℚ) : ExportRow :=
  { Agent := a
    DealCount := (submitted_deals scorer hub a : ℤ)
    ManHours := hrs
    HourlyRate := 18
    HourlyPay := hrs * 18
    RegularDealsPay := (submitted_deals scorer hub a : ℤ) * 5
    SaturdayDealsPay := 0
    HoursBonus := 0
    FirstDealBonus := 0
    ManualBonus := 0
    Bonus25Count := 0
    Bonus50Count := 0 }

/-- Lines 133-148: the enroller table before sorting. -/
def enrollersTable (scorer : String → String → ℕ) (hub : List Deal)
    (sheet : List SheetRow) : List ExportRow :=
  (sheetPairs (enrollerAgent scorer hub) sheet).map
    (fun p => enrollerRow scorer hub p.1 p.2)

/-- Line 172: the enroller section of the report, sorted by agent name. -/
def enrollers_export (scorer : String → String → ℕ) (hub : List Deal)
    (sheet : List SheetRow) : List ExportRow :=
  sort_values agentLe (enrollersTable scorer hub sheet)

/-- Line 175: `pd.concat([closers_export, enrollers_export])` — the final
report table (the trailing `fillna(0)` is a no-op: every field of every
row is already populated). -/
def combined_export (scorer : String → String → ℕ) (hub : List Deal)
    (closerSheet enrollerSheet : List SheetRow) : List ExportRow :=
  closers_export scorer hub closerSheet ++ enrollers_export scorer hub enrollerSheet

/-- The whole run on raw inputs: load (lines 61-79) then compute. -/
def run_payroll (scorer : String → String → ℕ) (hubRaw : List RawDeal)
    (closerRaw enrollerRaw : List RawSheetRow) : List ExportRow :=
  combined_export scorer (loadHub hubRaw) (loadSheet closerRaw)
    (loadSheet enrollerRaw)

/-! ## Definitions written from the spec text (for refinement comparisons)

The code resolves BOTH name columns against the deal-tracker roster
(`canonical_closers` / `canonical_enrollers`); the spec instead asks for the
deal-tracker names to be matched against the timesheet roster, and for a
configurable weekend reference date.  The next definitions follow the
spec's words so the two behaviours can be compared; they are NOT part of
the code model. -/

/-- Modelled from the spec: "matching must be run both ways (timesheet
name → deal-tracker roster, and deal-tracker name → timesheet roster)" —
the resolution of a deal-tracker closer name against the closer-timesheet
roster.  No such step exists in src/app.py (line 88 matches deal-tracker
names against `canonical_closers`, the deal-tracker's own roster). -/
def hubCloserAgentSpec (scorer : String → String → ℕ) (sheet : List SheetRow)
    (name : String) : String :=
  fuzzy_match scorer name (uniqueList (sheet.map SheetRow.Rep)) 80

/-- Modelled from the spec: the most recent Saturday day bucket appearing
in the deal data; part of the weekend reference-date default that the
claim describes and the code does not have. -/
def mostRecentSaturdayInData (hub : List Deal) : Option ℕ :=
  ((hub.filterMap DealDate).filter (fun d => weekdayOfDay d == 5)).max?

/-- Modelled from the spec: the most recent calendar Saturday on or before
`today` (day buckets, weekday 5 ⟺ day ≡ 2 mod 7). -/
def mostRecentCalendarSaturday (today : ℕ) : ℕ :=
  today - ((today + 5) % 7)

/-- Modelled from the spec: the weekend/Saturday reference date —
"defaulting to the most recent matching weekday found in the deal data,
falling back to the most recent calendar occurrence of that weekday if
none is found in-data".  The code has no such configuration input. -/
def weekend_reference_day (hub : List Deal) (today : ℕ) : ℕ :=
  (mostRecentSaturdayInData hub).getD (mostRecentCalendarSaturday today)

/-- Modelled from the spec: weekend-deal counting under the reference-date
policy the claim describes (count only deals whose date-only bucket equals
the reference date). -/
def saturday_deals_refdate (scorer : String → String → ℕ) (hub : List Deal)
    (refDay : ℕ) (a : String) : ℕ :=
  (((hub.filter (fun r => DealDate r == some refDay)).filter
      (fun r => decide (closerAgent scorer hub r.CLOSER = a)))).length

/-! ## Concrete fixtures for counterexamples and witnesses -/

/-- A scorer granting 100 to equal strings and 0 otherwise — the behaviour
every fuzzywuzzy scorer has on exact matches and a conservative floor
elsewhere. -/
def exactScorer : String → String → ℕ := fun a b => if a = b then 100 else 0

/-- A scorer granting 100 to equal strings and 90 (≥ the cutoff 80) to the
pair of spellings "John Smith" / "Jon Smith", in either order — the
behaviour of an edit-distance ratio on that near-miss pair. -/
def demoScorer : String → String → ℕ := fun a b =>
  if a = b then 100
  else if (a = "John Smith" ∧ b = "Jon Smith") ∨ (a = "Jon Smith" ∧ b = "John Smith") then 90
  else 0

/-- Deal tracker with one deal closed by "John Smith". -/
def hubC1 : List Deal :=
  [{ DATE := some 600, CLOSER := "John Smith", ENROLLER := "E One" }]

/-- Closer timesheet spelling the same agent "Jon Smith". -/
def sheetC1 : List SheetRow :=
  [{ Rep := "Jon Smith", ManHours := 40 }]

/-- Deal tracker with one parseable date (day 0, a Thursday) and one
unparseable date (`NaT`). -/
def hubC2 : List Deal :=
  [{ DATE := some 600, CLOSER := "Agent A", ENROLLER := "E One" },
   { DATE := none, CLOSER := "Agent B", ENROLLER := "E Two" }]

/-- Deal tracker with deals on two DIFFERENT Saturdays (day buckets 2 and
9, both ≡ 2 mod 7, hence weekday 5). -/
def hubC3 : List Deal :=
  [{ DATE := some (2 * 1440), CLOSER := "Agent A", ENROLLER := "E One" },
   { DATE := some (9 * 1440), CLOSER := "Agent A", ENROLLER := "E One" }]

/-! ## Lemmas about `drop_duplicates` -/

theorem mem_of_mem_dropDupsAux {α β : Type} [DecidableEq β] (key : α → β) :
    ∀ (seen : List β) (l : List α) (a : α), a ∈ dropDupsAux key seen l → a ∈ l := by
  intro seen l
  induction l generalizing seen with
  | nil => intro a ha; simp [dropDupsAux] at ha
  | cons x t ih =>
    intro a ha
    simp only [dropDupsAux] at ha
    by_cases hx : key x ∈ seen
    · rw [if_pos hx] at ha
      exact List.mem_cons_of_mem x (ih seen a ha)
    · rw [if_neg hx] at ha
      rcases List.mem_cons.mp ha with rfl | ha
      · exact List.mem_cons_self a t
      · exact List.mem_cons_of_mem x (ih _ a ha)

theorem mem_map_key_dropDupsAux {α β : Type} [DecidableEq β] (key : α → β) :
    ∀ (seen : List β) (l : List α) (b : β),
      b ∈ (dropDupsAux key seen l).map key ↔ b ∈ l.map key ∧ b ∉ seen := by
  intro seen l
  induction l generalizing seen with
  | nil => intro b; simp [dropDupsAux]
  | cons x t ih =>
    intro b
    simp only [dropDupsAux]
    by_cases hx : key x ∈ seen
    · rw [if_pos hx]
      rw [ih seen b]
      simp only [List.map_cons, List.mem_cons]
      constructor
      · rintro ⟨hb, hs⟩; exact ⟨Or.inr hb, hs⟩
      · rintro ⟨hb | hb, hs⟩
        · exact absurd (hb ▸ hx) hs
        · exact ⟨hb, hs⟩
    · rw [if_neg hx]
      simp only [List.map_cons]
      rw [List.mem_cons, List.mem_cons, ih (key x :: seen) b]
      constructor
      · rintro (rfl | ⟨hb, hs⟩)
        · exact ⟨Or.inl rfl, hx⟩
        · exact ⟨Or.inr hb, fun hmem => hs (List.mem_cons_of_mem _ hmem)⟩
      · rintro ⟨hb | hb, hs⟩
        · exact Or.inl hb
        · by_cases hbx : b = key x
          · exact Or.inl hbx
          · refine Or.inr ⟨hb, fun hmem => ?_⟩
            rcases List.mem_cons.mp hmem with h | h
            · exact hbx h
            · exact hs h

theorem nodup_map_key_dropDupsAux {α β : Type} [DecidableEq β] (key : α → β) :
    ∀ (seen : List β) (l : List α), ((dropDupsAux key seen l).map key).Nodup := by
  intro seen l
  induction l generalizing seen with
  | nil => simp [dropDupsAux]
  | cons x t ih =>
    simp only [dropDupsAux]
    by_cases hx : key x ∈ seen
    · rw [if_pos hx]; exact ih seen
    · rw [if_neg hx]
      simp only [List.map_cons, List.nodup_cons]
      refine ⟨fun hmem => ?_, ih (key x :: seen)⟩
      rw [mem_map_key_dropDupsAux] at hmem
      exact hmem.2 (List.mem_cons_self _ _)

theorem find?_dropDupsAux {α β : Type} [DecidableEq β] (key : α → β) :
    ∀ (seen : List β) (l : List α) (a : α), a ∈ dropDupsAux key seen l →
      key a ∉ seen ∧ l.find? (fun x => decide (key x = key a)) = some a := by
  intro seen l
  induction l generalizing seen with
  | nil => intro a ha; simp [dropDupsAux] at ha
  | cons x t ih =>
    intro a ha
    simp only [dropDupsAux] at ha
    by_cases hx : key x ∈ seen
    · rw [if_pos hx] at ha
      obtain ⟨hseen, hfind⟩ := ih seen a ha
      have hne : key x ≠ key a := fun h => hseen (h ▸ hx)
      refine ⟨hseen, ?_⟩
      rw [List.find?_cons_of_neg _ (by simp [hne]), hfind]
    · rw [if_neg hx] at ha
      rcases List.mem_cons.mp ha with rfl | ha
      · refine ⟨hx, ?_⟩
        rw [List.find?_cons_of_pos _ (by simp)]
      · obtain ⟨hseen, hfind⟩ := ih _ a ha
        have hax : key a ≠ key x := fun h => hseen (by rw [h]; exact List.mem_cons_self _ _)
        refine ⟨fun h => hseen (List.mem_cons_of_mem _ h), ?_⟩
        rw [List.find?_cons_of_neg _ (by simp only [decide_eq_true_eq]; exact fun h => hax h.symm), hfind]

theorem mem_map_key_drop_duplicates {α β : Type} [DecidableEq β] (key : α → β)
    (l : List α) (b : β) :
    b ∈ (drop_duplicates key l).map key ↔ b ∈ l.map key := by
  rw [drop_duplicates, mem_map_key_dropDupsAux]
  simp

theorem nodup_map_key_drop_duplicates {α β : Type} [DecidableEq β] (key : α → β)
    (l : List α) : ((drop_duplicates key l).map key).Nodup :=
  nodup_map_key_dropDupsAux key [] l

theorem find?_drop_duplicates {α β : Type} [DecidableEq β] (key : α → β)
    (l : List α) (a : α) (ha : a ∈ drop_duplicates key l) :
    l.find? (fun x => decide (key x = key a)) = some a :=
  (find?_dropDupsAux key [] l a ha).2

theorem mem_of_mem_drop_duplicates {α β : Type} [DecidableEq β] (key : α → β)
    (l : List α) (a : α) (ha : a ∈ drop_duplicates key l) : a ∈ l :=
  mem_of_mem_dropDupsAux key [] l a ha

/-- A list whose keys are distinct has exactly one row with any key it
contains. -/
theorem length_filter_key_eq_one {α β : Type} [DecidableEq β] (key : α → β) :
    ∀ (l : List α) (b : β), (l.map key).Nodup → b ∈ l.map key →
      (l.filter (fun x => decide (key x = b))).length = 1 := by
  intro l
  induction l with
  | nil => intro b _ hb; simp at hb
  | cons x t ih =>
    intro b hnd hb
    simp only [List.map_cons, List.nodup_cons] at hnd
    by_cases hxb : key x = b
    · have ht : t.filter (fun y => decide (key y = b)) = [] := by
        rw [List.filter_eq_nil_iff]
        intro y hy
        simp only [decide_eq_true_eq]
        intro hyb
        exact hnd.1 (hxb ▸ hyb ▸ List.mem_map_of_mem key hy)
      simp [List.filter_cons, hxb, ht]
    · have hb' : b ∈ t.map key := by
        rcases List.mem_cons.mp hb with h | h
        · exact absurd h.symm hxb
        · exact h
      simp only [List.filter_cons, decide_eq_true_eq]
      rw [if_neg hxb]
      exact ih b hnd.2 hb'

/-! ## Lemmas about `sort_values` -/

theorem insertLe_perm {α : Type} (le : α → α → Bool) (a : α) :
    ∀ l : List α, List.Perm (insertLe le a l) (a :: l) := by
  intro l
  induction l with
  | nil => exact List.Perm.refl _
  | cons b t ih =>
    simp only [insertLe]
    by_cases h : le a b
    · rw [if_pos h]
    · rw [if_neg h]
      exact (ih.cons b).trans (List.Perm.swap a b t)

theorem sort_values_perm {α : Type} (le : α → α → Bool) :
    ∀ l : List α, List.Perm (sort_values le l) l := by
  intro l
  induction l with
  | nil => exact List.Perm.refl _
  | cons a t ih =>
    exact (insertLe_perm le a (sort_values le t)).trans (ih.cons a)

theorem pairwise_insertLe {α : Type} (le : α → α → Bool)
    (htot : ∀ a b, le a b = true ∨ le b a = true)
    (htrans : ∀ a b c, le a b = true → le b c = true → le a c = true) (a : α) :
    ∀ l : List α, l.Pairwise (fun x y => le x y = true) →
      (insertLe le a l).Pairwise (fun x y => le x y = true) := by
  intro l
  induction l with
  | nil => intro _; simp [insertLe]
  | cons b t ih =>
    intro hl
    rw [List.pairwise_cons] at hl
    simp only [insertLe]
    by_cases h : le a b
    · rw [if_pos h]
      refine List.Pairwise.cons ?_ (List.Pairwise.cons hl.1 hl.2)
      intro y hy
      rcases List.mem_cons.mp hy with rfl | hy
      · exact h
      · exact htrans a b y h (hl.1 y hy)
    · rw [if_neg h]
      have hba : le b a = true := (htot a b).resolve_left (by simpa using h)
      refine List.Pairwise.cons ?_ (ih hl.2)
      intro y hy
      rcases List.mem_cons.mp ((insertLe_perm le a t).mem_iff.mp hy) with rfl | hy
      · exact hba
      · exact hl.1 y hy

theorem pairwise_sort_values {α : Type} (le : α → α → Bool)
    (htot : ∀ a b, le a b = true ∨ le b a = true)
    (htrans : ∀ a b c, le a b = true → le b c = true → le a c = true) :
    ∀ l : List α, (sort_values le l).Pairwise (fun x y => le x y = true) := by
  intro l
  induction l with
  | nil => simp [sort_values]
  | cons a t ih => exact pairwise_insertLe le htot htrans a _ ih

/-! ## `charListLe` agrees with the lexicographic order on `String` -/

theorem charListLe_iff_not_lex :
    ∀ as bs : List Char, charListLe as bs = true ↔ ¬ List.Lex (fun c d => c < d) bs as := by
  intro as
  induction as with
  | nil =>
    intro bs
    refine iff_of_true rfl (fun h => ?_)
    cases h
  | cons a as ih =>
    intro bs
    cases bs with
    | nil =>
      refine iff_of_false (by simp [charListLe]) (fun h => h (List.Lex.nil))
    | cons b bs =>
      by_cases hab : a = b
      · subst hab
        have hstep : charListLe (a :: as) (a :: bs) = charListLe as bs := by
          simp [charListLe]
        rw [hstep, ih bs]
        constructor
        · intro h hlex
          cases hlex with
          | cons h' => exact h h'
          | rel h' => exact absurd h' (lt_irrefl a)
        · intro h hlex
          exact h (List.Lex.cons hlex)
      · simp only [charListLe, if_neg hab]
        by_cases hlt : a < b
        · refine iff_of_true (by simp [hlt]) (fun h => ?_)
          cases h with
          | cons _ => exact hab rfl
          | rel h' => exact absurd hlt (asymm h')
        · have hba : b < a := (lt_or_gt_of_ne hab).resolve_left hlt
          exact iff_of_false (by simp [hlt]) (fun h => h (List.Lex.rel hba))

theorem charListLe_iff_le (s t : String) : charListLe s.data t.data = true ↔ s ≤ t := by
  rw [String.le_iff_toList_le]
  show charListLe s.data t.data = true ↔ s.data ≤ t.data
  rw [← not_lt]
  exact charListLe_iff_not_lex s.data t.data

theorem charListLe_total : ∀ as bs : List Char,
    charListLe as bs = true ∨ charListLe bs as = true := by
  intro as
  induction as with
  | nil => intro bs; exact Or.inl rfl
  | cons a as ih =>
    intro bs
    cases bs with
    | nil => exact Or.inr rfl
    | cons b bs =>
      by_cases hab : a = b
      · subst hab
        simp only [charListLe, if_pos rfl]
        exact ih bs
      · have hba : ¬ b = a := fun e => hab e.symm
        rcases lt_or_gt_of_ne hab with h | h
        · exact Or.inl (by simp [charListLe, hab, h])
        · exact Or.inr (by simp [charListLe, hba, h])

theorem charListLe_trans : ∀ as bs cs : List Char,
    charListLe as bs = true → charListLe bs cs = true → charListLe as cs = true := by
  intro as
  induction as with
  | nil => intro bs cs _ _; rfl
  | cons a as ih =>
    intro bs cs h1 h2
    cases bs with
    | nil => simp [charListLe] at h1
    | cons b bs =>
      cases cs with
      | nil => simp [charListLe] at h2
      | cons c cs =>
        simp only [charListLe] at h1 h2 ⊢
        by_cases hab : a = b
        · subst hab
          rw [if_pos rfl] at h1
          by_cases hac : a = c
          · subst hac
            rw [if_pos rfl] at h2 ⊢
            exact ih bs cs h1 h2
          · rw [if_neg hac] at h2 ⊢
            exact h2
        · rw [if_neg hab] at h1
          have hlt1 : a < b := by simpa using h1
          by_cases hbc : b = c
          · subst hbc
            rw [if_neg hab]
            simp [hlt1]
          · rw [if_neg hbc] at h2
            have hlt2 : b < c := by simpa using h2
            have hac : a < c := lt_trans hlt1 hlt2
            rw [if_neg (ne_of_lt hac)]
            simp [hac]

theorem agentLe_total : ∀ x y : ExportRow, agentLe x y = true ∨ agentLe y x = true :=
  fun x y => charListLe_total x.Agent.data y.Agent.data

theorem agentLe_trans : ∀ x y z : ExportRow,
    agentLe x y = true → agentLe y z = true → agentLe x z = true :=
  fun x y z => charListLe_trans x.Agent.data y.Agent.data z.Agent.data

/-! ## Lemmas about `fuzzy_match` -/

theorem fuzzy_match_nil (scorer : String → String → ℕ) (name : String) (cutoff : ℕ) :
    fuzzy_match scorer name [] cutoff = name := rfl

/-- When no candidate reaches the cutoff, the filtered candidate list is
empty, `extractOne` returns `none`, and the original name passes through. -/
theorem fuzzy_match_of_below (scorer : String → String → ℕ) (name : String)
    (lst : List String) (cutoff : ℕ) (h : ∀ c ∈ lst, scorer name c < cutoff) :
    fuzzy_match scorer name lst cutoff = name := by
  have hnil : (lst.map (fun c => (c, scorer name c))).filter
      (fun p => decide (cutoff ≤ p.2)) = [] := by
    rw [List.filter_eq_nil_iff]
    intro p hp
    obtain ⟨c, hc, rfl⟩ := List.mem_map.mp hp
    simp only [decide_eq_true_eq]
    exact Nat.not_le.mpr (h c hc)
  unfold fuzzy_match extractOne
  rw [hnil]

theorem maxFirst_mem : ∀ (ps : List (String × ℕ)) (p : String × ℕ),
    maxFirst p ps ∈ p :: ps := by
  intro ps
  induction ps with
  | nil => intro p; exact List.mem_cons_self _ _
  | cons q qs ih =>
    intro p
    simp only [maxFirst]
    by_cases h : p.2 < q.2
    · rw [if_pos h]
      rcases List.mem_cons.mp (ih q) with h' | h'
      · rw [h']; exact List.mem_cons_of_mem _ (List.mem_cons_self _ _)
      · exact List.mem_cons_of_mem _ (List.mem_cons_of_mem _ h')
    · rw [if_neg h]
      rcases List.mem_cons.mp (ih p) with h' | h'
      · rw [h']; exact List.mem_cons_self _ _
      · exact List.mem_cons_of_mem _ (List.mem_cons_of_mem _ h')

theorem maxFirst_score : ∀ (ps : List (String × ℕ)) (p : String × ℕ),
    ∀ q ∈ p :: ps, q.2 ≤ (maxFirst p ps).2 := by
  intro ps
  induction ps with
  | nil =>
    intro p q hq
    rcases List.mem_cons.mp hq with h | h
    · rw [h]; exact Nat.le_refl _
    · simp at h
  | cons r rs ih =>
    intro p q hq
    have hp : p.2 ≤ (maxFirst (if p.2 < r.2 then r else p) rs).2 := by
      refine le_trans ?_ (ih _ _ (List.mem_cons_self _ _))
      by_cases h : p.2 < r.2
      · rw [if_pos h]; exact le_of_lt h
      · rw [if_neg h]
    have hr : r.2 ≤ (maxFirst (if p.2 < r.2 then r else p) rs).2 := by
      refine le_trans ?_ (ih _ _ (List.mem_cons_self _ _))
      by_cases h : p.2 < r.2
      · rw [if_pos h]
      · rw [if_neg h]; exact Nat.le_of_not_lt h
    show q.2 ≤ (maxFirst (if p.2 < r.2 then r else p) rs).2
    rcases List.mem_cons.mp hq with h | h
    · rw [h]; exact hp
    · rcases List.mem_cons.mp h with h1 | h1
      · rw [h1]; exact hr
      · exact ih _ q (List.mem_cons_of_mem _ h1)

/-- A roster name whose self-score is 100, strictly above every other
candidate's score, resolves to itself. -/
theorem fuzzy_match_self (scorer : String → String → ℕ) (lst : List String)
    (name : String) (hmem : name ∈ lst) (hself : scorer name name = 100)
    (hmax : ∀ c ∈ lst, c ≠ name → scorer name c < 100) :
    fuzzy_match scorer name lst 80 = name := by
  have hmemf : (name, (100 : ℕ)) ∈ (lst.map (fun c => (c, scorer name c))).filter
      (fun p => decide (80 ≤ p.2)) := by
    rw [List.mem_filter]
    constructor
    · rw [← hself]; exact List.mem_map_of_mem _ hmem
    · simp
  unfold fuzzy_match extractOne
  cases hfe : (lst.map (fun c => (c, scorer name c))).filter
      (fun p => decide (80 ≤ p.2)) with
  | nil => rw [hfe] at hmemf
  | cons p ps =>
    rw [hfe] at hmemf
    have hresmem : maxFirst p ps ∈ p :: ps := maxFirst_mem ps p
    have hscore : (100 : ℕ) ≤ (maxFirst p ps).2 := maxFirst_score ps p _ hmemf
    have hmap : maxFirst p ps ∈ lst.map (fun c => (c, scorer name c)) := by
      have := hfe ▸ hresmem
      exact (List.mem_filter.mp this).1
    obtain ⟨c, hc, hcp⟩ := List.mem_map.mp hmap
    by_cases hcn : c = name
    · show (maxFirst p ps).1 = name
      rw [← hcp]
      exact hcn
    · exfalso
      have h1 : (100 : ℕ) ≤ scorer name c := by
        have h2 : (maxFirst p ps).2 = scorer name c := by rw [← hcp]
        rw [← h2]
        exact hscore
      exact absurd h1 (Nat.not_le.mpr (hmax c hc hcn))

/-! ## Pipeline-level lemmas -/

theorem map_fst_sheetPairs_nodup (resolve : String → String) (sheet : List SheetRow) :
    ((sheetPairs resolve sheet).map Prod.fst).Nodup :=
  nodup_map_key_drop_duplicates Prod.fst _

theorem mem_map_fst_sheetPairs (resolve : String → String) (sheet : List SheetRow)
    (n : String) :
    n ∈ (sheetPairs resolve sheet).map Prod.fst ↔
      n ∈ sheet.map (fun r => resolve r.Rep) := by
  rw [sheetPairs, mem_map_key_drop_duplicates, List.map_map]
  rfl

theorem sheetPairs_hours (resolve : String → String) (sheet : List SheetRow)
    (p : String × ℚ) (hp : p ∈ sheetPairs resolve sheet) :
    ∃ r, sheet.find? (fun x => decide (resolve x.Rep = p.1)) = some r ∧
      p.2 = r.ManHours := by
  have hfind := find?_drop_duplicates Prod.fst _ p hp
  rw [List.find?_map] at hfind
  cases hf2 : sheet.find?
      ((fun x => decide (x.1 = p.1)) ∘ (fun r => (resolve r.Rep, r.ManHours))) with
  | none => rw [hf2] at hfind; simp at hfind
  | some r =>
    rw [hf2] at hfind
    have hgr : (resolve r.Rep, r.ManHours) = p := by
      simpa using hfind
    exact ⟨r, hf2, by rw [← hgr]⟩

theorem mem_closersTable_iff (scorer : String → String → ℕ) (hub : List Deal)
    (sheet : List SheetRow) (row : ExportRow) :
    row ∈ closersTable scorer hub sheet ↔
      ∃ p ∈ sheetPairs (closerAgent scorer hub) sheet,
        row = closerRow scorer hub p.1 p.2 := by
  rw [closersTable, List.mem_map]
  constructor
  · rintro ⟨p, hp, h⟩; exact ⟨p, hp, h.symm⟩
  · rintro ⟨p, hp, h⟩; exact ⟨p, hp, h.symm⟩

theorem mem_enrollersTable_iff (scorer : String → String → ℕ) (hub : List Deal)
    (sheet : List SheetRow) (row : ExportRow) :
    row ∈ enrollersTable scorer hub sheet ↔
      ∃ p ∈ sheetPairs (enrollerAgent scorer hub) sheet,
        row = enrollerRow scorer hub p.1 p.2 := by
  rw [enrollersTable, List.mem_map]
  constructor
  · rintro ⟨p, hp, h⟩; exact ⟨p, hp, h.symm⟩
  · rintro ⟨p, hp, h⟩; exact ⟨p, hp, h.symm⟩

theorem mem_closers_export_iff (scorer : String → String → ℕ) (hub : List Deal)
    (sheet : List SheetRow) (row : ExportRow) :
    row ∈ closers_export scorer hub sheet ↔ row ∈ closersTable scorer hub sheet :=
  (sort_values_perm agentLe _).mem_iff

theorem mem_enrollers_export_iff (scorer : String → String → ℕ) (hub : List Deal)
    (sheet : List SheetRow) (row : ExportRow) :
    row ∈ enrollers_export scorer hub sheet ↔ row ∈ enrollersTable scorer hub sheet :=
  (sort_values_perm agentLe _).mem_iff

theorem map_agent_closersTable (scorer : String → String → ℕ) (hub : List Deal)
    (sheet : List SheetRow) :
    (closersTable scorer hub sheet).map ExportRow.Agent =
      (sheetPairs (closerAgent scorer hub) sheet).map Prod.fst := by
  rw [closersTable, List.map_map]
  rfl

theorem map_agent_enrollersTable (scorer : String → String → ℕ) (hub : List Deal)
    (sheet : List SheetRow) :
    (enrollersTable scorer hub sheet).map ExportRow.Agent =
      (sheetPairs (enrollerAgent scorer hub) sheet).map Prod.fst := by
  rw [enrollersTable, List.map_map]
  rfl

theorem mem_first_per_date (hub : List Deal) (r : Deal)
    (hr : r ∈ first_per_date hub) : r ∈ hub := by
  have h1 := mem_of_mem_drop_duplicates DealDate _ r hr
  exact (sort_values_perm _ hub).mem_iff.mp h1

theorem deal_count_eq_zero (scorer : String → String → ℕ) (hub : List Deal)
    (a : String) (h : ∀ r ∈ hub, closerAgent scorer hub r.CLOSER ≠ a) :
    deal_count scorer hub a = 0 := by
  rw [deal_count, List.length_eq_zero, List.filter_eq_nil_iff]
  intro r hr
  simp only [decide_eq_true_eq]
  exact h r hr

theorem saturday_deals_eq_zero (scorer : String → String → ℕ) (hub : List Deal)
    (a : String) (h : ∀ r ∈ hub, closerAgent scorer hub r.CLOSER ≠ a) :
    saturday_deals scorer hub a = 0 := by
  rw [saturday_deals, List.length_eq_zero, List.filter_eq_nil_iff]
  intro r hr
  simp only [decide_eq_true_eq]
  exact h r (List.mem_filter.mp hr).1

theorem first_deal_bonus_count_eq_zero (scorer : String → String → ℕ)
    (hub : List Deal) (a : String)
    (h : ∀ r ∈ hub, closerAgent scorer hub r.CLOSER ≠ a) :
    first_deal_bonus_count scorer hub a = 0 := by
  rw [first_deal_bonus_count, List.length_eq_zero, List.filter_eq_nil_iff]
  intro r hr
  simp only [decide_eq_true_eq]
  exact h r (mem_first_per_date hub r hr)

theorem submitted_deals_eq_zero (scorer : String → String → ℕ) (hub : List Deal)
    (a : String) (h : ∀ r ∈ hub, enrollerAgent scorer hub r.ENROLLER ≠ a) :
    submitted_deals scorer hub a = 0 := by
  rw [submitted_deals, List.length_eq_zero, List.filter_eq_nil_iff]
  intro r hr
  simp only [decide_eq_true_eq]
  exact h r hr

/-- Any duration string that does not split into exactly three
integer-parseable fields yields 0. -/
theorem parse_eq_zero_of_malformed (s : String)
    (hcond : (durationFields s).length ≠ 3 ∨ none ∈ durationFields s) :
    parse_and_round_up s = 0 := by
  rcases hf : durationFields s with _ | ⟨a, _ | ⟨b, _ | ⟨c, _ | ⟨d, t⟩⟩⟩⟩
  · simp only [parse_and_round_up, hf]
  · cases a <;> simp only [parse_and_round_up, hf]
  · cases a <;> cases b <;> simp only [parse_and_round_up, hf]
  · rw [hf] at hcond
    rcases hcond with hlen | hmem
    · simp at hlen
    · cases a <;> cases b <;> cases c <;>
        first
          | (simp only [parse_and_round_up, hf]; done)
          | exact absurd hmem (by simp)
  · cases a <;> cases b <;> cases c <;> simp only [parse_and_round_up, hf]

/-! ## Claim theorems -/

/-- C5: for every duration string of the form `H:M:S` with integer fields,
`parse_and_round_up` computes `ceil(H + M/60 + S/3600)`; in particular
"1:30:00" yields 2.0, "0:00:01" yields 1.0 and "2:00:00" yields 2.0.
(The model computes the sum in exact rationals; the code uses IEEE
doubles, under which the three example inputs are exact.) -/
theorem C5_duration_equals_ceil :
    (∀ (h m s : ℤ) (hs ms ss : String),
      toIntChars hs.data = some h → toIntChars ms.data = some m →
      toIntChars ss.data = some s →
      ':' ∉ hs.data → ':' ∉ ms.data → ':' ∉ ss.data →
      parse_and_round_up (hs ++ ":" ++ ms ++ ":" ++ ss) =
        ((⌈(h : ℚ) + (m : ℚ) / 60 + (s : ℚ) / 3600⌉ : ℤ) : ℚ)) ∧
    parse_and_round_up "1:30:00" = 2 ∧
    parse_and_round_up "0:00:01" = 1 ∧
    parse_and_round_up "2:00:00" = 2 := by
  refine ⟨?_, ?_, ?_, ?_⟩
  · intro h m s hs ms ss hh hm hsx h1 h2 h3
    have hdata : (hs ++ ":" ++ ms ++ ":" ++ ss).data =
        [':'].intercalate [hs.data, ms.data, ss.data] := by
      simp [String.data_append, List.intercalate]
    have hsplit : splitFields (hs ++ ":" ++ ms ++ ":" ++ ss) =
        [hs.data, ms.data, ss.data] := by
      rw [splitFields, hdata]
      refine List.splitOn_intercalate _ ':' ?_ (by simp)
      intro l hl
      simp only [List.mem_cons, List.not_mem_nil, or_false] at hl
      rcases hl with rfl | rfl | rfl
      · exact h1
      · exact h2
      · exact h3
    have hfields : durationFields (hs ++ ":" ++ ms ++ ":" ++ ss) =
        [some h, some m, some s] := by
      rw [durationFields, hsplit]
      simp [hh, hm, hsx]
    simp only [parse_and_round_up, hfields]
  · show ((⌈(1 : ℚ) + (30 : ℚ) / 60 + (0 : ℚ) / 3600⌉ : ℤ) : ℚ) = 2
    have hc : (⌈(1 : ℚ) + (30 : ℚ) / 60 + (0 : ℚ) / 3600⌉ : ℤ) = 2 := by
      rw [Int.ceil_eq_iff]; norm_num
    rw [hc]
    norm_num
  · show ((⌈(0 : ℚ) + (0 : ℚ) / 60 + (1 : ℚ) / 3600⌉ : ℤ) : ℚ) = 1
    have hc : (⌈(0 : ℚ) + (0 : ℚ) / 60 + (1 : ℚ) / 3600⌉ : ℤ) = 1 := by
      rw [Int.ceil_eq_iff]; norm_num
    rw [hc]
    norm_num
  · show ((⌈(2 : ℚ) + (0 : ℚ) / 60 + (0 : ℚ) / 3600⌉ : ℤ) : ℚ) = 2
    have hc : (⌈(2 : ℚ) + (0 : ℚ) / 60 + (0 : ℚ) / 3600⌉ : ℤ) = 2 := by
      rw [Int.ceil_eq_iff]; norm_num
    rw [hc]
    norm_num

/-- Witness for C5: the general clause applied to the rendered fields of
"1:30:00". -/
theorem C5_witness :
    parse_and_round_up ("1" ++ ":" ++ "30" ++ ":" ++ "00") =
      ((⌈(1 : ℚ) + (30 : ℚ) / 60 + (0 : ℚ) / 3600⌉ : ℤ) : ℚ) :=
  C5_duration_equals_ceil.1 1 30 0 "1" "30" "00" (by decide) (by decide)
    (by decide) (by decide) (by decide) (by decide)

/-- C6: closer hourly-rate tiers are inclusive lower bounds with the
highest applicable tier winning: ≥15→22, ≥12→20, ≥8→18, ≥4→15, else 13;
in particular 15→22, 14→20, 0→13. -/
theorem C6_hourly_rate_tiers :
    (∀ d : ℤ, 15 ≤ d → determine_hourly_rate d = 22) ∧
    (∀ d : ℤ, 12 ≤ d → d < 15 → determine_hourly_rate d = 20) ∧
    (∀ d : ℤ, 8 ≤ d → d < 12 → determine_hourly_rate d = 18) ∧
    (∀ d : ℤ, 4 ≤ d → d < 8 → determine_hourly_rate d = 15) ∧
    (∀ d : ℤ, d < 4 → determine_hourly_rate d = 13) ∧
    determine_hourly_rate 15 = 22 ∧ determine_hourly_rate 14 = 20 ∧
    determine_hourly_rate 0 = 13 := by
  refine ⟨?_, ?_, ?_, ?_, ?_, by decide, by decide, by decide⟩
  · intro d h
    simp only [determine_hourly_rate]
    split_ifs <;> omega
  · intro d h1 h2
    simp only [determine_hourly_rate]
    split_ifs <;> omega
  · intro d h1 h2
    simp only [determine_hourly_rate]
    split_ifs <;> omega
  · intro d h1 h2
    simp only [determine_hourly_rate]
    split_ifs <;> omega
  · intro d h
    simp only [determine_hourly_rate]
    split_ifs <;> omega

/-- Witness for C6: the top tier at deal count 100 and the second tier at
deal count 13. -/
theorem C6_witness :
    determine_hourly_rate 100 = 22 ∧ determine_hourly_rate 13 = 20 :=
  ⟨C6_hourly_rate_tiers.1 100 (by decide),
   C6_hourly_rate_tiers.2.1 13 (by decide) (by decide)⟩

/-- C7: with an empty candidate list or no candidate scoring at least the
cutoff 80, `fuzzy_match` returns the query name unchanged — the code's
identity fallback on `extractOne` returning `None` (the model is total, so
the no-raise clause is the existence of the fallback value itself). -/
theorem C7_fuzzy_identity_fallback :
    (∀ (scorer : String → String → ℕ) (name : String),
      fuzzy_match scorer name [] 80 = name) ∧
    (∀ (scorer : String → String → ℕ) (name : String) (lst : List String),
      (∀ c ∈ lst, scorer name c < 80) → fuzzy_match scorer name lst 80 = name) :=
  ⟨fun scorer name => fuzzy_match_nil scorer name 80,
   fun scorer name lst h => fuzzy_match_of_below scorer name lst 80 h⟩

/-- Witness for C7: a below-cutoff candidate list passes the query through. -/
theorem C7_witness : fuzzy_match exactScorer "Zeta" ["Agent A"] 80 = "Zeta" :=
  C7_fuzzy_identity_fallback.2 exactScorer "Zeta" ["Agent A"] (by decide)

/-- C8: malformed durations — wrong number of colon-separated fields, a
non-integer field, or a missing value (pandas renders it "nan") — parse to
0.0; the model is a total function, so no exception escapes. -/
theorem C8_malformed_duration_zero :
    (∀ s : String, (durationFields s).length ≠ 3 → parse_and_round_up s = 0) ∧
    (∀ s : String, none ∈ durationFields s → parse_and_round_up s = 0) ∧
    parse_and_round_up "" = 0 ∧ parse_and_round_up "abc" = 0 ∧
    parse_and_round_up "1:2" = 0 ∧ parse_and_round_up "1:2:3:4" = 0 ∧
    parse_and_round_up "1:x:3" = 0 ∧ parse_and_round_up "nan" = 0 :=
  ⟨fun s h => parse_eq_zero_of_malformed s (Or.inl h),
   fun s h => parse_eq_zero_of_malformed s (Or.inr h),
   rfl, rfl, rfl, rfl, rfl, rfl⟩

/-- Witness for C8: the two general clauses applied to "1:2" (two fields)
and "1:x:3" (non-integer field). -/
theorem C8_witness :
    parse_and_round_up "1:2" = 0 ∧ parse_and_round_up "1:x:3" = 0 :=
  ⟨C8_malformed_duration_zero.1 "1:2" (by decide),
   C8_malformed_duration_zero.2.1 "1:x:3" (by decide)⟩

/-- C1 counterexample: deal-tracker names are NOT fuzzy-matched against
the timesheet roster.  With a scorer rating the near-miss pair
"John Smith"/"Jon Smith" at 90 (≥ the cutoff 80), line 88 resolves the
deal-tracker name "John Smith" against the deal-tracker's own roster,
where it matches itself — while resolution against the timesheet roster,
which the claim asserts, would give "Jon Smith". -/
theorem C1_counterexample :
    closerAgent demoScorer hubC1 "John Smith" = "John Smith" ∧
    hubCloserAgentSpec demoScorer sheetC1 "John Smith" = "Jon Smith" ∧
    closerAgent demoScorer hubC1 "John Smith" ≠
      hubCloserAgentSpec demoScorer sheetC1 "John Smith" := by
  decide

/-- C1 (amended): both resolution passes (line 87 for timesheet names,
line 88 for deal-tracker names) match against the deal-tracker roster
`canonical_closers`; a deal-tracker name — whose self-score 100 is
strictly maximal on that roster — therefore resolves to itself, and every
deal row spelled exactly that way is counted for that identity (which the
timesheet side joins onto via the line-87 resolution). -/
theorem C1_amended_tracker_roster (scorer : String → String → ℕ)
    (hub : List Deal) (name : String) (h1 : name ∈ canonical_closers hub)
    (h2 : scorer name name = 100)
    (h3 : ∀ c ∈ canonical_closers hub, c ≠ name → scorer name c < 100) :
    closerAgent scorer hub name = name ∧
    (hub.filter (fun r => decide (r.CLOSER = name))).length ≤
      deal_count scorer hub name := by
  have hself : closerAgent scorer hub name = name :=
    fuzzy_match_self scorer (canonical_closers hub) name h1 h2 h3
  refine ⟨hself, ?_⟩
  rw [deal_count, ← List.countP_eq_length_filter, ← List.countP_eq_length_filter]
  apply List.countP_mono_left
  intro r hr hcl
  simp only [decide_eq_true_eq] at hcl ⊢
  rw [hcl]
  exact hself

/-- Witness for the amended C1 at a concrete roster. -/
theorem C1_amended_witness :
    closerAgent exactScorer hubC1 "John Smith" = "John Smith" ∧
    (hubC1.filter (fun r => decide (r.CLOSER = "John Smith"))).length ≤
      deal_count exactScorer hubC1 "John Smith" :=
  C1_amended_tracker_roster exactScorer hubC1 "John Smith" (by decide)
    (by decide) (by decide)

/-- C2: a deal row whose date failed to parse (`NaT`) is indeed excluded
from the Saturday count, but it is NOT excluded from the
first-deal-of-day computation: all `NaT` rows sort last and collapse into
one `NaT` `DealDate` bucket, whose first row IS credited — here agent
"Agent B", whose only deal has an unparseable date, receives a
First-Deal credit of 1 and a First Deal Bonus of 25 in the report. -/
theorem C2_unparseable_date_eval :
    saturday_deals exactScorer hubC2 "Agent B" = 0 ∧
    first_deal_bonus_count exactScorer hubC2 "Agent B" = 1 ∧
    (∃ r ∈ first_per_date hubC2, r.DATE = none ∧ r.CLOSER = "Agent B") ∧
    (∃ row ∈ closers_export exactScorer hubC2 [{ Rep := "Agent B", ManHours := 40 }],
      row.Agent = "Agent B" ∧ row.FirstDealBonus = 25) := by
  decide

/-- C3 counterexample: there is no weekend reference date in the code —
line 94 counts deals on EVERY Saturday.  On a deal tracker with two deals
by "Agent A" on two different Saturdays (day buckets 2 and 9), the code
counts 2 weekend deals, while the claim's policy (reference date
defaulting to the most recent in-data Saturday, day 9) would count 1. -/
theorem C3_counterexample :
    saturday_deals exactScorer hubC3 "Agent A" = 2 ∧
    weekend_reference_day hubC3 100 = 9 ∧
    saturday_deals_refdate exactScorer hubC3 (weekend_reference_day hubC3 100)
      "Agent A" = 1 := by
  decide

/-- C3 (amended): the weekend policy is hardcoded, not configurable: a
deal counts as a weekend deal exactly when its date's weekday is Saturday
(any Saturday), and that one Saturday count feeds both weekend pay
(count × 50) and, via the regular-deal split, the regular pay
((deals − count) × 35), consistently in every report row. -/
theorem C3_amended_hardcoded_saturday (scorer : String → String → ℕ)
    (hub : List Deal) (sheet : List SheetRow) :
    ∀ row ∈ closers_export scorer hub sheet,
      row.SaturdayDealsPay = (saturday_deals scorer hub row.Agent : ℤ) * 50 ∧
      row.RegularDealsPay =
        (row.DealCount - (saturday_deals scorer hub row.Agent : ℤ)) * 35 ∧
      (saturday_deals scorer hub row.Agent : ℤ) ≤ row.DealCount ∧
      saturday_deals scorer hub row.Agent =
        (hub.filter (fun r =>
          decide (closerAgent scorer hub r.CLOSER = row.Agent) &&
            isSaturday r.DATE)).length := by
  intro row hrow
  obtain ⟨p, hp, rfl⟩ := (mem_closersTable_iff scorer hub sheet row).mp
    ((mem_closers_export_iff scorer hub sheet row).mp hrow)
  refine ⟨rfl, rfl, ?_, ?_⟩
  · show (saturday_deals scorer hub p.1 : ℤ) ≤ (deal_count scorer hub p.1 : ℤ)
    have hsub : saturday_deals scorer hub p.1 ≤ deal_count scorer hub p.1 := by
      rw [saturday_deals, deal_count]
      exact (List.Sublist.filter _ (List.filter_sublist hub)).length_le
    exact_mod_cast hsub
  · rw [saturday_deals, List.filter_filter]

/-- Witness for the amended C3 at a concrete two-Saturday tracker. -/
theorem C3_amended_witness :
    (closerRow exactScorer hubC3 "Agent A" 40).SaturdayDealsPay =
      (saturday_deals exactScorer hubC3 "Agent A" : ℤ) * 50 ∧
    (closerRow exactScorer hubC3 "Agent A" 40).RegularDealsPay =
      ((closerRow exactScorer hubC3 "Agent A" 40).DealCount -
        (saturday_deals exactScorer hubC3 "Agent A" : ℤ)) * 35 ∧
    (saturday_deals exactScorer hubC3 "Agent A" : ℤ) ≤
      (closerRow exactScorer hubC3 "Agent A" 40).DealCount ∧
    saturday_deals exactScorer hubC3 "Agent A" =
      (hubC3.filter (fun r =>
        decide (closerAgent exactScorer hubC3 r.CLOSER = "Agent A") &&
          isSaturday r.DATE)).length :=
  C3_amended_hardcoded_saturday exactScorer hubC3
    [{ Rep := "Agent A", ManHours := 40 }]
    (closerRow exactScorer hubC3 "Agent A" 40) (List.Mem.head _)

/-- C4: a (resolved) agent has a row in a role's report section exactly
when the role's timesheet has a row resolving to that agent; deals-only
agents are absent (there is no other row source), and an agent with hours
but no deals keeps a row whose deal-derived columns are all zero (the
left-join's `fillna(0)`). -/
theorem C4_rows_iff_timesheet (scorer : String → String → ℕ) (hub : List Deal)
    (clSheet enSheet : List SheetRow) :
    (∀ n : String,
      (∃ row ∈ closers_export scorer hub clSheet, row.Agent = n) ↔
        n ∈ clSheet.map (fun r => closerAgent scorer hub r.Rep)) ∧
    (∀ n : String,
      (∃ row ∈ enrollers_export scorer hub enSheet, row.Agent = n) ↔
        n ∈ enSheet.map (fun r => enrollerAgent scorer hub r.Rep)) ∧
    (∀ row ∈ closers_export scorer hub clSheet,
      (∀ r ∈ hub, closerAgent scorer hub r.CLOSER ≠ row.Agent) →
        row.DealCount = 0 ∧ row.SaturdayDealsPay = 0 ∧ row.FirstDealBonus = 0) ∧
    (∀ row ∈ enrollers_export scorer hub enSheet,
      (∀ r ∈ hub, enrollerAgent scorer hub r.ENROLLER ≠ row.Agent) →
        row.DealCount = 0 ∧ row.RegularDealsPay = 0) := by
  refine ⟨?_, ?_, ?_, ?_⟩
  · intro n
    constructor
    · rintro ⟨row, hrow, rfl⟩
      obtain ⟨p, hp, rfl⟩ := (mem_closersTable_iff scorer hub clSheet row).mp
        ((mem_closers_export_iff scorer hub clSheet row).mp hrow)
      exact (mem_map_fst_sheetPairs _ _ _).mp (List.mem_map_of_mem Prod.fst hp)
    · intro hn
      obtain ⟨p, hp, hfst⟩ :=
        List.mem_map.mp ((mem_map_fst_sheetPairs _ _ _).mpr hn)
      refine ⟨closerRow scorer hub p.1 p.2, ?_, hfst⟩
      rw [mem_closers_export_iff, mem_closersTable_iff]
      exact ⟨p, hp, rfl⟩
  · intro n
    constructor
    · rintro ⟨row, hrow, rfl⟩
      obtain ⟨p, hp, rfl⟩ := (mem_enrollersTable_iff scorer hub enSheet row).mp
        ((mem_enrollers_export_iff scorer hub enSheet row).mp hrow)
      exact (mem_map_fst_sheetPairs _ _ _).mp (List.mem_map_of_mem Prod.fst hp)
    · intro hn
      obtain ⟨p, hp, hfst⟩ :=
        List.mem_map.mp ((mem_map_fst_sheetPairs _ _ _).mpr hn)
      refine ⟨enrollerRow scorer hub p.1 p.2, ?_, hfst⟩
      rw [mem_enrollers_export_iff, mem_enrollersTable_iff]
      exact ⟨p, hp, rfl⟩
  · intro row hrow hno
    obtain ⟨p, hp, rfl⟩ := (mem_closersTable_iff scorer hub clSheet row).mp
      ((mem_closers_export_iff scorer hub clSheet row).mp hrow)
    have hdc : deal_count scorer hub p.1 = 0 := deal_count_eq_zero _ _ _ hno
    have hsat : saturday_deals scorer hub p.1 = 0 := saturday_deals_eq_zero _ _ _ hno
    have hfd : first_deal_bonus_count scorer hub p.1 = 0 :=
      first_deal_bonus_count_eq_zero _ _ _ hno
    refine ⟨?_, ?_, ?_⟩
    · show (deal_count scorer hub p.1 : ℤ) = 0
      exact_mod_cast hdc
    · show (saturday_deals scorer hub p.1 : ℤ) * 50 = 0
      rw [hsat]; rfl
    · show (first_deal_bonus_count scorer hub p.1 : ℤ) * 25 = 0
      rw [hfd]; rfl
  · intro row hrow hno
    obtain ⟨p, hp, rfl⟩ := (mem_enrollersTable_iff scorer hub enSheet row).mp
      ((mem_enrollers_export_iff scorer hub enSheet row).mp hrow)
    have hsd : submitted_deals scorer hub p.1 = 0 := submitted_deals_eq_zero _ _ _ hno
    refine ⟨?_, ?_⟩
    · show (submitted_deals scorer hub p.1 : ℤ) = 0
      exact_mod_cast hsd
    · show (submitted_deals scorer hub p.1 : ℤ) * 5 = 0
      rw [hsd]; rfl

/-- Witness for C4: an hours-only agent ("Zeta", unmatched by any deal)
keeps a zero-deal row. -/
theorem C4_witness :
    (closerRow exactScorer hubC3 "Zeta" 10).DealCount = 0 ∧
    (closerRow exactScorer hubC3 "Zeta" 10).SaturdayDealsPay = 0 ∧
    (closerRow exactScorer hubC3 "Zeta" 10).FirstDealBonus = 0 :=
  (C4_rows_iff_timesheet exactScorer hubC3 [{ Rep := "Zeta", ManHours := 10 }]
      []).2.2.1
    (closerRow exactScorer hubC3 "Zeta" 10) (List.Mem.head _) (by decide)

/-- C9: the combined report is the closer section followed by the enroller
section, each section sorted ascending by agent name, and an identity with
hours in both roles gets exactly one row in each section. -/
theorem C9_report_ordering (scorer : String → String → ℕ) (hub : List Deal)
    (clSheet enSheet : List SheetRow) :
    combined_export scorer hub clSheet enSheet =
      closers_export scorer hub clSheet ++ enrollers_export scorer hub enSheet ∧
    (closers_export scorer hub clSheet).Pairwise (fun x y => x.Agent ≤ y.Agent) ∧
    (enrollers_export scorer hub enSheet).Pairwise (fun x y => x.Agent ≤ y.Agent) ∧
    (∀ n : String, n ∈ clSheet.map (fun r => closerAgent scorer hub r.Rep) →
        n ∈ enSheet.map (fun r => enrollerAgent scorer hub r.Rep) →
      ((closers_export scorer hub clSheet).filter
          (fun row => decide (row.Agent = n))).length = 1 ∧
      ((enrollers_export scorer hub enSheet).filter
          (fun row => decide (row.Agent = n))).length = 1) := by
  refine ⟨rfl, ?_, ?_, ?_⟩
  · exact (pairwise_sort_values agentLe agentLe_total agentLe_trans _).imp
      (fun h => (charListLe_iff_le _ _).mp h)
  · exact (pairwise_sort_values agentLe agentLe_total agentLe_trans _).imp
      (fun h => (charListLe_iff_le _ _).mp h)
  · intro n hncl hnen
    constructor
    · show (List.filter (fun row => decide (row.Agent = n))
        (sort_values agentLe (closersTable scorer hub clSheet))).length = 1
      rw [((sort_values_perm agentLe (closersTable scorer hub clSheet)).filter
        (fun row => decide (row.Agent = n))).length_eq]
      apply length_filter_key_eq_one ExportRow.Agent
      · rw [map_agent_closersTable]
        exact map_fst_sheetPairs_nodup _ _
      · rw [map_agent_closersTable, mem_map_fst_sheetPairs]
        exact hncl
    · show (List.filter (fun row => decide (row.Agent = n))
        (sort_values agentLe (enrollersTable scorer hub enSheet))).length = 1
      rw [((sort_values_perm agentLe (enrollersTable scorer hub enSheet)).filter
        (fun row => decide (row.Agent = n))).length_eq]
      apply length_filter_key_eq_one ExportRow.Agent
      · rw [map_agent_enrollersTable]
        exact map_fst_sheetPairs_nodup _ _
      · rw [map_agent_enrollersTable, mem_map_fst_sheetPairs]
        exact hnen

/-- Witness for C9: an agent with hours in both timesheets gets one row
in each section. -/
theorem C9_witness :
    ((closers_export exactScorer [] [{ Rep := "Agent A", ManHours := 40 }]).filter
        (fun row => decide (row.Agent = "Agent A"))).length = 1 ∧
    ((enrollers_export exactScorer [] [{ Rep := "Agent A", ManHours := 10 }]).filter
        (fun row => decide (row.Agent = "Agent A"))).length = 1 :=
  (C9_report_ordering exactScorer [] [{ Rep := "Agent A", ManHours := 40 }]
      [{ Rep := "Agent A", ManHours := 10 }]).2.2.2
    "Agent A" (by decide) (by decide)

/-- C10: each canonical identity has at most one row per role section
(distinct `Agent` values), and a row's Man Hours come from the FIRST
timesheet row (in input order) resolving to that identity — later
duplicates are dropped, not summed. -/
theorem C10_unique_rows_first_hours (scorer : String → String → ℕ)
    (hub : List Deal) (clSheet enSheet : List SheetRow) :
    ((closers_export scorer hub clSheet).map ExportRow.Agent).Nodup ∧
    ((enrollers_export scorer hub enSheet).map ExportRow.Agent).Nodup ∧
    (∀ row ∈ closers_export scorer hub clSheet,
      ∃ r, clSheet.find?
          (fun x => decide (closerAgent scorer hub x.Rep = row.Agent)) = some r ∧
        row.ManHours = r.ManHours) ∧
    (∀ row ∈ enrollers_export scorer hub enSheet,
      ∃ r, enSheet.find?
          (fun x => decide (enrollerAgent scorer hub x.Rep = row.Agent)) = some r ∧
        row.ManHours = r.ManHours) := by
  refine ⟨?_, ?_, ?_, ?_⟩
  · show (List.map ExportRow.Agent
      (sort_values agentLe (closersTable scorer hub clSheet))).Nodup
    rw [((sort_values_perm agentLe
      (closersTable scorer hub clSheet)).map ExportRow.Agent).nodup_iff]
    rw [map_agent_closersTable]
    exact map_fst_sheetPairs_nodup _ _
  · show (List.map ExportRow.Agent
      (sort_values agentLe (enrollersTable scorer hub enSheet))).Nodup
    rw [((sort_values_perm agentLe
      (enrollersTable scorer hub enSheet)).map ExportRow.Agent).nodup_iff]
    rw [map_agent_enrollersTable]
    exact map_fst_sheetPairs_nodup _ _
  · intro row hrow
    obtain ⟨p, hp, rfl⟩ := (mem_closersTable_iff scorer hub clSheet row).mp
      ((mem_closers_export_iff scorer hub clSheet row).mp hrow)
    obtain ⟨r, hfind, hhrs⟩ := sheetPairs_hours (closerAgent scorer hub) clSheet p hp
    exact ⟨r, hfind, hhrs⟩
  · intro row hrow
    obtain ⟨p, hp, rfl⟩ := (mem_enrollersTable_iff scorer hub enSheet row).mp
      ((mem_enrollers_export_iff scorer hub enSheet row).mp hrow)
    obtain ⟨r, hfind, hhrs⟩ := sheetPairs_hours (enrollerAgent scorer hub) enSheet p hp
    exact ⟨r, hfind, hhrs⟩

/-- Witness for C10: two timesheet rows for the same agent collapse to one
row carrying the first row's hours (40, not 10 or 50). -/
theorem C10_witness :
    ∃ r, [({ Rep := "Agent A", ManHours := 40 } : SheetRow),
          { Rep := "Agent A", ManHours := 10 }].find?
        (fun x => decide (closerAgent exactScorer [] x.Rep = "Agent A")) = some r ∧
      (40 : ℚ) = r.ManHours :=
  (C10_unique_rows_first_hours exactScorer []
      [{ Rep := "Agent A", ManHours := 40 }, { Rep := "Agent A", ManHours := 10 }]
      []).2.2.1
    (closerRow exactScorer [] "Agent A" 40) (List.Mem.head _)

end PayrollBot
